import Mathlib

/-!
# Verification of the cryptotax lot-inventory accounting engine

Shallow embedding of `src/cryptotax.py` (classes `Lot`, `LotBasket`,
`Inventory`, `TaxEngine`) and proofs about the claims of the spec.

Modelling conventions:
* Python `Decimal` quantities/prices/costs are embedded as `ℚ` (exact
  rational arithmetic).
* `datetime` is embedded as a `(year, month, day)` record; the code only
  uses dates as dictionary keys, for ordering and through `.year`.
* Python exceptions are embedded as an error enumeration `Err`; a function
  that can raise returns `Except Err _`.  `Err` lists exactly the
  exception classes reachable in the embedded code: `IndexError` (list
  index on an empty lot list), `KeyError` (missing dict key: price table
  or inventory basket), `TypeError` (calling the `None` returned by
  `handlers.get`), `DivisionByZero` (Python `decimal` division by zero;
  `InvalidOperation` for `0/0` is folded into the same constructor),
  `ValueError` (raised by `LotBasket.add_lot` on an asset mismatch),
  `AssertionError` (the post-hoc tolerance `assert` in `assign_lot`), and
  `NameError` (reading the local `assign_lot_basket` when it was never
  bound).
* In-place mutation is embedded as explicit state passing: `assign_lot`
  returns the post-call basket together with the result, because Python
  mutates `self.inventory.baskets[asset]` in place even on the paths that
  subsequently raise.
* Logging calls are pure output and are not modelled.
-/

namespace Cryptotax

/-- Calendar date; the program keys price dictionaries by exact date,
sorts transactions by date and filters them by `date.year`. -/
structure Date where
  year : Nat
  month : Nat
  day : Nat
deriving DecidableEq, Repr

/-- Exceptions reachable in the embedded code (see module docstring). -/
inductive Err where
  | indexError
  | keyError
  | typeError
  | divisionByZero
  | valueError
  | assertionError
  | nameError
deriving DecidableEq, Repr

/-- `class Lot`: N units of an asset acquired at a date for a unit cost. -/
structure Lot where
  date : Date
  asset : String
  qty : ℚ
  cost : ℚ
deriving DecidableEq, Repr

/-- Sum of the quantities of a list of lots (`sum(lot.qty for lot in lots)`). -/
def totalQty (lots : List Lot) : ℚ :=
  (lots.map Lot.qty).sum

/-- Sum of `lot.cost * lot.qty` over a list of lots. -/
def totalCost (lots : List Lot) : ℚ :=
  (lots.map (fun l => l.cost * l.qty)).sum

/-- `class LotBasket`: an ordered collection of lots of a single asset. -/
structure LotBasket where
  asset : String
  lots : List Lot
deriving DecidableEq, Repr

/-- `LotBasket.total_qty` property. -/
def LotBasket.total_qty (b : LotBasket) : ℚ :=
  totalQty b.lots

/-- `LotBasket.total_cost` property. -/
def LotBasket.total_cost (b : LotBasket) : ℚ :=
  totalCost b.lots

/-- `LotBasket.avg_cost`: `total_cost / total_qty if total_qty else 0`.
Python truthiness of a `Decimal` is `≠ 0`. -/
def LotBasket.avg_cost (b : LotBasket) : ℚ :=
  if b.total_qty ≠ 0 then b.total_cost / b.total_qty else 0

/-- `LotBasket.add_lot`: appends a lot, raising `ValueError` when the lot's
asset differs from the basket's. -/
def LotBasket.add_lot (b : LotBasket) (l : Lot) : Except Err LotBasket :=
  if l.asset ≠ b.asset then .error .valueError
  else .ok ⟨b.asset, b.lots ++ [l]⟩

/-- `criterio` of `TaxEngine`: the lot-selection policy. -/
inductive Criterio where
  | FIFO
  | LIFO
deriving DecidableEq, Repr

/-- The lot the `assign_lot` loop selects: `lots[0]` under FIFO, `lots[-1]`
under LIFO; `none` embeds the `IndexError` Python raises on an empty list. -/
def selectLot (c : Criterio) (lots : List Lot) : Option Lot :=
  match c with
  | .FIFO => lots.head?
  | .LIFO => lots.getLast?

/-- Removal of the selected lot: `lots.pop(0)` under FIFO, `lots.pop(-1)`
under LIFO. -/
def popLot (c : Criterio) (lots : List Lot) : List Lot :=
  match c with
  | .FIFO => lots.tail
  | .LIFO => lots.dropLast

/-- In-place `lot.qty -= remaining` on the selected lot. -/
def reduceSelected (c : Criterio) (lots : List Lot) (r : ℚ) : List Lot :=
  match c with
  | .FIFO =>
    match lots with
    | [] => []
    | l :: rest => { l with qty := l.qty - r } :: rest
  | .LIFO =>
    match lots.getLast? with
    | none => []
    | some l => lots.dropLast ++ [{ l with qty := l.qty - r }]

/-- The `while remaining_qty > 0` loop of `TaxEngine.assign_lot`, with the
state it mutates passed explicitly: `acc` is `assigned_lot_basket`, `lots`
the lot list of `self.inventory.baskets[asset]`.  Returns the lot list after
the loop (mutations persist even when an exception is raised) together with
the assigned basket, or the exception raised.  In the split branch the
selected lot's quantity is reduced in place before `add_lot` runs, matching
the statement order of the Python loop body. -/
def assignGo (c : Criterio) (remaining : ℚ) (acc : LotBasket) (lots : List Lot) :
    List Lot × Except Err LotBasket :=
  if remaining ≤ 0 then (lots, .ok acc)
  else
    match h : selectLot c lots with
    | none => (lots, .error .indexError)
    | some lot =>
      if remaining < lot.qty then
        match acc.add_lot { lot with qty := remaining } with
        | .error e => (reduceSelected c lots remaining, .error e)
        | .ok acc2 => (reduceSelected c lots remaining, .ok acc2)
      else
        match acc.add_lot lot with
        | .error e => (popLot c lots, .error e)
        | .ok acc2 => assignGo c (remaining - lot.qty) acc2 (popLot c lots)
termination_by lots.length
decreasing_by
  have hne : lots ≠ [] := by
    intro e
    subst e
    cases c <;> simp [selectLot] at h
  have hpos : 0 < lots.length := List.length_pos.mpr hne
  cases c <;> simp [popLot, List.length_tail, List.length_dropLast] <;> omega

/-- Tolerance of the post-hoc
`assert assigned_lot_basket.total_qty - qty_to_assign <= 0.000001`. -/
def assertTol : ℚ := 1 / 1000000

/-- `TaxEngine.assign_lot`, at the level of the single basket
`self.inventory.baskets[asset]` it reads and mutates.  The first component
of the result is the basket after the call (Python mutates it in place on
every path, including the raising ones); the second is the basket of
consumed lot fragments, or the exception raised. -/
def assign_lot (c : Criterio) (basket : LotBasket) (qty_to_assign : ℚ) :
    LotBasket × Except Err LotBasket :=
  match assignGo c qty_to_assign (LotBasket.mk basket.asset []) basket.lots with
  | (lots2, .error e) => (⟨basket.asset, lots2⟩, .error e)
  | (lots2, .ok acc) =>
    (⟨basket.asset, lots2⟩,
      if acc.total_qty - qty_to_assign ≤ assertTol then .ok acc
      else .error .assertionError)

/-- `tx.type`. -/
inductive TxType where
  | Buy
  | Sell
deriving DecidableEq, Repr

/-- `class Transaction`: immutable input record. -/
structure Transaction where
  txid : String
  date : Date
  type : TxType
  qty1 : ℚ
  asset1 : String
  qty2 : ℚ
  asset2 : String
deriving DecidableEq, Repr

/-- A price dictionary (`Asset.prices`): exact date → unit price;
`none` embeds a missing key, whose subscript raises `KeyError`. -/
def PriceTable : Type :=
  Date → Option ℚ

/-- The result dict of the four `_handle_*` methods.  The Python dict has
separate `asset_to_pop` / `qty_to_pop` keys that are `None` together; they
are embedded as one optional pair, likewise the push side. -/
structure HandlerResult where
  pop : Option (String × ℚ)
  push : Option (String × ℚ)
  cost_basis : ℚ
  income : Option ℚ
deriving DecidableEq, Repr

/-- `TaxEngine._handle_buy`.  `tx.qty2 / tx.qty1` raises a Python `decimal`
division error when `qty1 = 0` (`DivisionByZero`, or `InvalidOperation`
for `0/0`; both embedded as `Err.divisionByZero`). -/
def handle_buy (tx : Transaction) : Except Err HandlerResult :=
  if tx.qty1 = 0 then .error .divisionByZero
  else .ok ⟨none, some (tx.asset1, tx.qty1), tx.qty2 / tx.qty1, none⟩

/-- `TaxEngine._handle_sell`. -/
def handle_sell (tx : Transaction) : Except Err HandlerResult :=
  if tx.qty1 = 0 then .error .divisionByZero
  else .ok ⟨some (tx.asset1, tx.qty1), none, tx.qty2 / tx.qty1, some tx.qty2⟩

/-- `vt = max(self.btceur[tx.date]*tx.qty2, self.xmreur[tx.date]*tx.qty1)`:
the valuation transmission value used by BOTH permuta handlers.  The code
always applies the hard-coded `btceur` table to `qty2` and the hard-coded
`xmreur` table to `qty1`, regardless of which assets `tx.asset1` /
`tx.asset2` actually are.  A missing date raises `KeyError`; the `btceur`
subscript is evaluated first. -/
def permutaVt (btceur xmreur : PriceTable) (tx : Transaction) : Except Err ℚ :=
  match btceur tx.date with
  | none => .error .keyError
  | some p2 =>
    match xmreur tx.date with
    | none => .error .keyError
    | some p1 => .ok (max (p2 * tx.qty2) (p1 * tx.qty1))

/-- `TaxEngine._handle_buy_permuta` (acquire `asset1` by giving `asset2`). -/
def handle_buy_permuta (btceur xmreur : PriceTable) (tx : Transaction) :
    Except Err HandlerResult :=
  match permutaVt btceur xmreur tx with
  | .error e => .error e
  | .ok vt =>
    if tx.qty1 = 0 then .error .divisionByZero
    else .ok ⟨some (tx.asset2, tx.qty2), some (tx.asset1, tx.qty1), vt / tx.qty1, some vt⟩

/-- `TaxEngine._handle_sell_permuta` (give `asset1`, receive `asset2`). -/
def handle_sell_permuta (btceur xmreur : PriceTable) (tx : Transaction) :
    Except Err HandlerResult :=
  match permutaVt btceur xmreur tx with
  | .error e => .error e
  | .ok vt =>
    if tx.qty2 = 0 then .error .divisionByZero
    else .ok ⟨some (tx.asset1, tx.qty1), some (tx.asset2, tx.qty2), vt / tx.qty2, some vt⟩

/-- The four handler methods registered in the `handlers` dict of
`process_transactions`. -/
inductive HandlerKind where
  | buyFiat
  | sellFiat
  | buyPermuta
  | sellPermuta
deriving DecidableEq, Repr

/-- `handlers.get((tx.type, tx.asset2))`.  The permuta entries for
`asset2 ∈ {BTC, XMR}` are inserted by `dict.update` after the fiat entries
and therefore win on a key collision; `none` embeds the `None` returned by
`.get` for an unrecognized pair. -/
def getHandler (base : String) (ty : TxType) (a2 : String) : Option HandlerKind :=
  if a2 = "BTC" ∨ a2 = "XMR" then
    some (match ty with | .Buy => .buyPermuta | .Sell => .sellPermuta)
  else if a2 = base then
    some (match ty with | .Buy => .buyFiat | .Sell => .sellFiat)
  else none

/-- Dispatch to the selected handler method. -/
def runHandler (btceur xmreur : PriceTable) (k : HandlerKind) (tx : Transaction) :
    Except Err HandlerResult :=
  match k with
  | .buyFiat => handle_buy tx
  | .sellFiat => handle_sell tx
  | .buyPermuta => handle_buy_permuta btceur xmreur tx
  | .sellPermuta => handle_sell_permuta btceur xmreur tx

/-- `Inventory.baskets`: an insertion-ordered dict with unique keys,
embedded as an association list. -/
abbrev Inventory : Type :=
  List (String × LotBasket)

/-- `self.inventory.baskets[asset]` read access; `none` embeds `KeyError`. -/
def lookupBasket (inv : Inventory) (asset : String) : Option LotBasket :=
  (inv.find? (fun p => p.1 == asset)).map Prod.snd

/-- In-place replacement of the basket stored under an existing key. -/
def setBasket (inv : Inventory) (asset : String) (b : LotBasket) : Inventory :=
  inv.map (fun p => if p.1 == asset then (asset, b) else p)

/-- `Inventory.add_lot`: lazily creates the asset's basket (via
`add_basket(LotBasket(asset))`, appended at the end of the dict), then
`LotBasket.add_lot` appends the lot, checking the asset match. -/
def inventoryAddLot (inv : Inventory) (lot : Lot) : Except Err Inventory :=
  match lookupBasket inv lot.asset with
  | none => .ok (inv ++ [(lot.asset, ⟨lot.asset, [lot]⟩)])
  | some b =>
    match b.add_lot lot with
    | .error e => .error e
    | .ok b2 => .ok (setBasket inv lot.asset b2)

/-- `TaxEngine.record_lot`: creates a `Lot` and adds it to the inventory. -/
def record_lot (inv : Inventory) (date : Date) (asset : String)
    (qty cost_basis : ℚ) : Except Err Inventory :=
  inventoryAddLot inv ⟨date, asset, qty, cost_basis⟩

/-- One entry of the `self.tax_events` ledger.  Python groups events in a
`defaultdict(list)` keyed by asset; the embedding keeps a single
append-only list carrying the asset key (always `tx.asset1`). -/
structure TaxEvent where
  asset : String
  date : Date
  qty : ℚ
  income : ℚ
  cost : ℚ
  result : ℚ
  trace : LotBasket
deriving DecidableEq, Repr

/-- `TaxEngine.record_tax_event`: appends an event whose cost is the
consumed basket's total cost and whose result is `income - cost`. -/
def record_tax_event (events : List TaxEvent) (date : Date) (asset : String)
    (income : ℚ) (basket : LotBasket) : List TaxEvent :=
  events ++ [⟨asset, date, basket.total_qty, income, basket.total_cost,
    income - basket.total_cost, basket⟩]

/-- The mutable state `process_transactions` threads through the loop. -/
structure EngineState where
  inventory : Inventory
  tax_events : List TaxEvent
deriving DecidableEq, Repr

/-- The constructor arguments of `TaxEngine` together with its two
hard-coded price tables `self.btceur` and `self.xmreur`. -/
structure EngineConfig where
  year : Nat
  criterio : Criterio
  base_asset : String
  btceur : PriceTable
  xmreur : PriceTable

/-- Python truthiness of the `income` field (`if income:`): `None` and
`Decimal(0)` are falsy. -/
def incomeTruthy (i : Option ℚ) : Bool :=
  match i with
  | none => false
  | some q => decide (q ≠ 0)

/-- `TaxEngine.assign_lot` at the engine level: when the requested quantity
is `≤ 0` the loop body never runs, so `self.inventory.baskets[asset]` is
never subscripted and no `KeyError` can occur; otherwise the asset's basket
is looked up (raising `KeyError` when absent) and consumed in place. -/
def assign_lot_engine (c : Criterio) (inv : Inventory) (asset : String)
    (qty : ℚ) : Inventory × Except Err LotBasket :=
  if qty ≤ 0 then
    (inv, if (0 : ℚ) - qty ≤ assertTol then .ok ⟨asset, []⟩
          else .error .assertionError)
  else
    match lookupBasket inv asset with
    | none => (inv, .error .keyError)
    | some b =>
      match assign_lot c b qty with
      | (b2, res) => (setBasket inv asset b2, res)

/-- The `if asset_to_pop:` step of the loop body.  Returns the updated
inventory and the local `assign_lot_basket` (absent when no pop happened).
The Python truthiness test on the asset string is embedded as `Option`
presence. -/
def popStep (c : Criterio) (inv : Inventory) (pop : Option (String × ℚ)) :
    Except Err (Inventory × Option LotBasket) :=
  match pop with
  | none => .ok (inv, none)
  | some (asset, qty) =>
    match assign_lot_engine c inv asset qty with
    | (_, .error e) => .error e
    | (inv2, .ok consumed) => .ok (inv2, some consumed)

/-- The `if asset_to_push:` step of the loop body. -/
def pushStep (inv : Inventory) (date : Date) (push : Option (String × ℚ))
    (cost_basis : ℚ) : Except Err Inventory :=
  match push with
  | none => .ok inv
  | some (asset, qty) => record_lot inv date asset qty cost_basis

/-- The body of the `tx.date.year <= self.year` branch of the
`process_transactions` loop for one transaction: dispatch on
`(tx.type, tx.asset2)`, run the handler, pop via `assign_lot`, push via
`record_lot`, and — only in the reporting year and only when the computed
income is truthy — record a tax event for `tx.asset1`.  Reading the local
`assign_lot_basket` without a preceding pop would be a `NameError` (or a
stale value from an earlier iteration); this path is unreachable because
every income-producing handler also pops. -/
def processTx (cfg : EngineConfig) (st : EngineState) (tx : Transaction) :
    Except Err EngineState :=
  match getHandler cfg.base_asset tx.type tx.asset2 with
  | none => .error .typeError
  | some k =>
    match runHandler cfg.btceur cfg.xmreur k tx with
    | .error e => .error e
    | .ok r =>
      match popStep cfg.criterio st.inventory r.pop with
      | .error e => .error e
      | .ok (inv1, consumed) =>
        match pushStep inv1 tx.date r.push r.cost_basis with
        | .error e => .error e
        | .ok inv2 =>
          if tx.date.year = cfg.year then
            if incomeTruthy r.income then
              match r.income, consumed with
              | some inc, some b =>
                .ok ⟨inv2, record_tax_event st.tax_events tx.date tx.asset1 inc b⟩
              | _, _ => .error .nameError
            else .ok ⟨inv2, st.tax_events⟩
          else .ok ⟨inv2, st.tax_events⟩

/-- One iteration of the `for n, tx in enumerate(self.transactions)` loop:
the `if tx.date.year <= self.year:` guard around the body. -/
def step (cfg : EngineConfig) (st : EngineState) (tx : Transaction) :
    Except Err EngineState :=
  if tx.date.year ≤ cfg.year then processTx cfg st tx else .ok st

/-- `sorted(..., key=lambda tx: tx.date)` comparison on dates. -/
def dateLe (d1 d2 : Date) : Bool :=
  if d1.year ≠ d2.year then decide (d1.year < d2.year)
  else if d1.month ≠ d2.month then decide (d1.month < d2.month)
  else decide (d1.day ≤ d2.day)

/-- The loop of `process_transactions` over an already-sorted list; a raised
exception aborts the whole run. -/
def processLoop (cfg : EngineConfig) (st : EngineState) :
    List Transaction → Except Err EngineState
  | [] => .ok st
  | tx :: rest =>
    match step cfg st tx with
    | .error e => .error e
    | .ok st2 => processLoop cfg st2 rest

/-- `TaxEngine.process_transactions`: `_init_transactions` re-sorts the
transaction list by date unconditionally, then the loop runs. -/
def process_transactions (cfg : EngineConfig) (st : EngineState)
    (txs : List Transaction) : Except Err EngineState :=
  processLoop cfg st (txs.mergeSort (fun a b => dateLe a.date b.date))

/-- Modelled from the spec: the swap-valuation rule as the spec words it,
`VT = max(price(asset2, date) × qty2, price(asset1, date) × qty1)` with
each leg valued by its OWN asset's price table.  Defined only to be
compared against the source-derived `permutaVt`. -/
def specSwapVt (priceOf : String → Date → Option ℚ) (tx : Transaction) :
    Option ℚ :=
  match priceOf tx.asset2 tx.date, priceOf tx.asset1 tx.date with
  | some p2, some p1 => some (max (p2 * tx.qty2) (p1 * tx.qty1))
  | _, _ => none

/-! ## Theorems -/

@[simp] theorem totalQty_nil : totalQty [] = 0 := rfl

@[simp] theorem totalCost_nil : totalCost [] = 0 := rfl

@[simp] theorem totalQty_cons (l : Lot) (ls : List Lot) :
    totalQty (l :: ls) = l.qty + totalQty ls := by
  simp [totalQty]

@[simp] theorem totalCost_cons (l : Lot) (ls : List Lot) :
    totalCost (l :: ls) = l.cost * l.qty + totalCost ls := by
  simp [totalCost]

@[simp] theorem totalQty_append (xs ys : List Lot) :
    totalQty (xs ++ ys) = totalQty xs + totalQty ys := by
  simp [totalQty]

@[simp] theorem totalCost_append (xs ys : List Lot) :
    totalCost (xs ++ ys) = totalCost xs + totalCost ys := by
  simp [totalCost]

theorem selectLot_ne_nil {c : Criterio} {lots : List Lot} {lot : Lot}
    (h : selectLot c lots = some lot) : lots ≠ [] := by
  intro e
  subst e
  cases c <;> simp [selectLot] at h

theorem selectLot_mem {c : Criterio} {lots : List Lot} {lot : Lot}
    (h : selectLot c lots = some lot) : lot ∈ lots := by
  cases c
  · simp only [selectLot] at h
    obtain ⟨t, rfl⟩ := List.head?_eq_some_iff.mp h
    simp
  · simp only [selectLot] at h
    obtain ⟨l2, rfl⟩ := List.getLast?_eq_some_iff.mp h
    simp

theorem totalQty_popLot {c : Criterio} {lots : List Lot} {lot : Lot}
    (h : selectLot c lots = some lot) :
    totalQty (popLot c lots) = totalQty lots - lot.qty := by
  cases c
  · simp only [selectLot] at h
    obtain ⟨t, rfl⟩ := List.head?_eq_some_iff.mp h
    simp [popLot]
  · simp only [selectLot] at h
    obtain ⟨l2, rfl⟩ := List.getLast?_eq_some_iff.mp h
    simp [popLot, List.dropLast_concat]

theorem totalQty_reduceSelected {c : Criterio} {lots : List Lot} {lot : Lot}
    (h : selectLot c lots = some lot) (r : ℚ) :
    totalQty (reduceSelected c lots r) = totalQty lots - r := by
  cases c
  · simp only [selectLot] at h
    obtain ⟨t, rfl⟩ := List.head?_eq_some_iff.mp h
    simp [reduceSelected]
    ring
  · simp only [selectLot] at h
    obtain ⟨l2, rfl⟩ := List.getLast?_eq_some_iff.mp h
    simp [reduceSelected, List.getLast?_concat, List.dropLast_concat]
    ring

theorem mem_popLot {c : Criterio} {lots : List Lot} {f : Lot}
    (h : f ∈ popLot c lots) : f ∈ lots := by
  cases c
  · exact List.mem_of_mem_tail h
  · exact (List.dropLast_sublist lots).subset h

/-- Unfolding of `assignGo` when the loop guard fails. -/
theorem assignGo_base {c : Criterio} {r : ℚ} {acc : LotBasket} {lots : List Lot}
    (h : r ≤ 0) : assignGo c r acc lots = (lots, .ok acc) := by
  rw [assignGo, if_pos h]

/-- Unfolding of `assignGo` on an exhausted lot list. -/
theorem assignGo_none {c : Criterio} {r : ℚ} {acc : LotBasket} {lots : List Lot}
    (h1 : ¬r ≤ 0) (h2 : selectLot c lots = none) :
    assignGo c r acc lots = (lots, .error .indexError) := by
  rw [assignGo, if_neg h1]
  split
  · rfl
  next lot heq =>
    rw [h2] at heq
    cases heq

/-- Unfolding of `assignGo` in the lot-splitting branch. -/
theorem assignGo_split {c : Criterio} {r : ℚ} {acc : LotBasket} {lots : List Lot}
    {lot : Lot} (h1 : ¬r ≤ 0) (h2 : selectLot c lots = some lot)
    (h3 : r < lot.qty) :
    assignGo c r acc lots =
      (reduceSelected c lots r, acc.add_lot { lot with qty := r }) := by
  rw [assignGo, if_neg h1]
  split
  next heq =>
    rw [h2] at heq
    cases heq
  next lot3 heq =>
    rw [h2] at heq
    injection heq with e
    subst e
    rw [if_pos h3]
    cases hadd : acc.add_lot { lot with qty := r } <;> simp [hadd]

/-- Unfolding of `assignGo` in the whole-lot-retirement branch. -/
theorem assignGo_pop {c : Criterio} {r : ℚ} {acc : LotBasket} {lots : List Lot}
    {lot : Lot} (h1 : ¬r ≤ 0) (h2 : selectLot c lots = some lot)
    (h3 : ¬r < lot.qty) :
    assignGo c r acc lots =
      match acc.add_lot lot with
      | .error e => (popLot c lots, .error e)
      | .ok acc2 => assignGo c (r - lot.qty) acc2 (popLot c lots) := by
  rw [assignGo, if_neg h1]
  split
  next heq =>
    rw [h2] at heq
    cases heq
  next lot3 heq =>
    rw [h2] at heq
    injection heq with e
    subst e
    rw [if_neg h3]

/-- Successful `add_lot` destructured: the asset matched and the lot was
appended. -/
theorem add_lot_ok {b : LotBasket} {l : Lot} {b2 : LotBasket}
    (h : b.add_lot l = .ok b2) :
    l.asset = b.asset ∧ b2 = ⟨b.asset, b.lots ++ [l]⟩ := by
  by_cases ha : l.asset = b.asset
  · refine ⟨ha, ?_⟩
    rw [LotBasket.add_lot, if_neg (by simp [ha])] at h
    injection h with e
    exact e.symm
  · rw [LotBasket.add_lot, if_pos (by simp [ha])] at h
    cases h

/-- Bookkeeping facts about a successful run of the `assign_lot` loop:
the accumulated basket keeps the accumulator's asset, quantity is
conserved between the basket and the accumulator, the accumulator grows by
exactly the requested quantity, and every accumulated fragment descends
from a lot of the input list with its date, cost and asset intact. -/
theorem assignGo_ok {c : Criterio} (r : ℚ) (acc : LotBasket) (lots : List Lot) :
    ∀ lots2 acc2, assignGo c r acc lots = (lots2, .ok acc2) →
      acc2.asset = acc.asset ∧
      totalQty acc2.lots + totalQty lots2 = totalQty acc.lots + totalQty lots ∧
      (0 ≤ r → totalQty acc2.lots = totalQty acc.lots + r) ∧
      (∀ f ∈ acc2.lots, f ∈ acc.lots ∨
        ∃ l ∈ lots, f.date = l.date ∧ f.cost = l.cost ∧ f.asset = l.asset) := by
  induction r, acc, lots using assignGo.induct (c := c) with
  | case1 remaining acc lots hle =>
    intro lots2 acc2 h
    rw [assignGo_base hle] at h
    injection h with e1 e2
    injection e2 with e2
    subst e1
    subst e2
    refine ⟨rfl, rfl, fun h0 => ?_, fun f hf => Or.inl hf⟩
    have : remaining = 0 := le_antisymm hle h0
    rw [this, add_zero]
  | case2 remaining acc lots hle hsel =>
    intro lots2 acc2 h
    rw [assignGo_none hle hsel] at h
    injection h with e1 e2
    cases e2
  | case3 remaining acc lots hle lot hsel hlt e hadd =>
    intro lots2 acc2 h
    rw [assignGo_split hle hsel hlt, hadd] at h
    injection h with e1 e2
    cases e2
  | case4 remaining acc lots hle lot hsel hlt acc3 hadd =>
    intro lots2 acc2 h
    rw [assignGo_split hle hsel hlt, hadd] at h
    injection h with e1 e2
    injection e2 with e2
    subst e1
    subst e2
    obtain ⟨hasset, rfl⟩ := add_lot_ok hadd
    refine ⟨rfl, ?_, fun _ => ?_, fun f hf => ?_⟩
    · rw [totalQty_reduceSelected hsel]
      simp only [totalQty_append, totalQty_cons, totalQty_nil]
      ring
    · simp only [totalQty_append, totalQty_cons, totalQty_nil]
      ring
    · rcases List.mem_append.mp hf with hf | hf
      · exact Or.inl hf
      · rcases List.mem_singleton.mp hf with rfl
        exact Or.inr ⟨lot, selectLot_mem hsel, rfl, rfl, rfl⟩
  | case5 remaining acc lots hle lot hsel hlt e hadd =>
    intro lots2 acc2 h
    rw [assignGo_pop hle hsel hlt, hadd] at h
    injection h with e1 e2
    cases e2
  | case6 remaining acc lots hle lot hsel hlt acc3 hadd ih =>
    intro lots2 acc2 h
    rw [assignGo_pop hle hsel hlt, hadd] at h
    obtain ⟨ha, ht, hr, hp⟩ := ih lots2 acc2 h
    obtain ⟨hasset, rfl⟩ := add_lot_ok hadd
    have hq : lot.qty ≤ remaining := le_of_not_lt hlt
    refine ⟨ha, ?_, fun h0 => ?_, fun f hf => ?_⟩
    · rw [ht, totalQty_popLot hsel]
      simp only [totalQty_append, totalQty_cons, totalQty_nil]
      ring
    · rw [hr (by linarith)]
      simp only [totalQty_append, totalQty_cons, totalQty_nil]
      ring
    · rcases hp f hf with hf2 | ⟨l, hl, hl2⟩
      · rcases List.mem_append.mp hf2 with hf3 | hf3
        · exact Or.inl hf3
        · have he : f = lot := List.mem_singleton.mp hf3
          exact Or.inr ⟨lot, selectLot_mem hsel, by rw [he], by rw [he], by rw [he]⟩
      · exact Or.inr ⟨l, mem_popLot hl, hl2⟩

/-- `assign_lot` facts on the successful path, lifted from `assignGo_ok`. -/
theorem assign_lot_ok {c : Criterio} {b : LotBasket} {q : ℚ} {b2 consumed : LotBasket}
    (h : assign_lot c b q = (b2, .ok consumed)) :
    consumed.asset = b.asset ∧ b2.asset = b.asset ∧
    totalQty consumed.lots + totalQty b2.lots = totalQty b.lots ∧
    (0 ≤ q → totalQty consumed.lots = q) ∧
    (∀ f ∈ consumed.lots, ∃ l ∈ b.lots,
      f.date = l.date ∧ f.cost = l.cost ∧ f.asset = l.asset) := by
  rcases hgo : assignGo c q ⟨b.asset, []⟩ b.lots with ⟨lots2, res⟩
  unfold assign_lot at h
  rw [hgo] at h
  cases res with
  | error e => simp at h
  | ok acc =>
    dsimp only at h
    by_cases hif : acc.total_qty - q ≤ assertTol
    · rw [if_pos hif] at h
      injection h with e1 e2
      injection e2 with e2
      subst e1
      subst e2
      obtain ⟨ha, ht, hr, hp⟩ := assignGo_ok q ⟨b.asset, []⟩ b.lots lots2 acc hgo
      refine ⟨ha, rfl, ?_, ?_, ?_⟩
      · simpa using ht
      · intro h0
        simpa using hr h0
      · intro f hf
        rcases hp f hf with hf2 | hf2
        · simp at hf2
        · exact hf2
    · rw [if_neg hif] at h
      injection h with e1 e2
      cases e2

/-- Concrete evaluation of the spec's running example: disposing 7 XMR under
FIFO from `[5@40 (2019-11-06), 5@50 (2019-12-02)]` retires the whole first
lot, splits the second, and leaves `[3@50]`. -/
theorem assign_lot_fifo_example :
    assign_lot .FIFO
        (LotBasket.mk "XMR"
          [⟨⟨2019, 11, 6⟩, "XMR", 5, 40⟩, ⟨⟨2019, 12, 2⟩, "XMR", 5, 50⟩]) 7 =
      (LotBasket.mk "XMR" [⟨⟨2019, 12, 2⟩, "XMR", 3, 50⟩],
        .ok (LotBasket.mk "XMR"
          [⟨⟨2019, 11, 6⟩, "XMR", 5, 40⟩, ⟨⟨2019, 12, 2⟩, "XMR", 2, 50⟩])) := by
  simp [assign_lot, assignGo, selectLot, popLot, reduceSelected, LotBasket.add_lot,
    assertTol, LotBasket.total_qty]
  norm_num

/-- C3: for every successful `assign_lot` of a requested quantity `q ≥ 0`,
the returned basket's total quantity is exactly `q` (hence within the
1e-8 tolerance), and the pre-call basket total equals the post-call total
plus the consumed total; additionally the `add_lot` append underlying
`record_lot` grows a basket's total by exactly the added lot's quantity,
so the conservation holds across any sequence of
`record_lot`/`assign_lot` calls. -/
theorem assign_lot_conservation (c : Criterio) (b : LotBasket) (q : ℚ)
    (b2 consumed : LotBasket) (hq : 0 ≤ q)
    (h : assign_lot c b q = (b2, .ok consumed)) :
    consumed.total_qty = q ∧
    b.total_qty = b2.total_qty + consumed.total_qty ∧
    (∀ (b3 : LotBasket) (l : Lot) (b4 : LotBasket),
      b3.add_lot l = .ok b4 → b4.total_qty = b3.total_qty + l.qty) := by
  obtain ⟨-, -, ht, hr, -⟩ := assign_lot_ok h
  refine ⟨hr hq, ?_, ?_⟩
  · simp only [LotBasket.total_qty]
    rw [← ht, hr hq]
    ring
  · intro b3 l b4 hadd
    obtain ⟨-, rfl⟩ := add_lot_ok hadd
    simp [LotBasket.total_qty]

/-- Witness for C3: disposing 7 XMR under FIFO from the basket
`[5@40, 5@50]` consumes exactly 7 and leaves 3, totals conserved. -/
theorem assign_lot_conservation_witness :
    (0 : ℚ) ≤ 7 ∧
    (LotBasket.mk "XMR"
        [⟨⟨2019, 11, 6⟩, "XMR", 5, 40⟩, ⟨⟨2019, 12, 2⟩, "XMR", 2, 50⟩]).total_qty = 7 ∧
    (LotBasket.mk "XMR"
        [⟨⟨2019, 11, 6⟩, "XMR", 5, 40⟩, ⟨⟨2019, 12, 2⟩, "XMR", 5, 50⟩]).total_qty =
      (LotBasket.mk "XMR" [⟨⟨2019, 12, 2⟩, "XMR", 3, 50⟩]).total_qty +
        (LotBasket.mk "XMR"
          [⟨⟨2019, 11, 6⟩, "XMR", 5, 40⟩, ⟨⟨2019, 12, 2⟩, "XMR", 2, 50⟩]).total_qty := by
  have h := assign_lot_conservation .FIFO
    (LotBasket.mk "XMR" [⟨⟨2019, 11, 6⟩, "XMR", 5, 40⟩, ⟨⟨2019, 12, 2⟩, "XMR", 5, 50⟩]) 7
    (LotBasket.mk "XMR" [⟨⟨2019, 12, 2⟩, "XMR", 3, 50⟩])
    (LotBasket.mk "XMR" [⟨⟨2019, 11, 6⟩, "XMR", 5, 40⟩, ⟨⟨2019, 12, 2⟩, "XMR", 2, 50⟩])
    (by norm_num) assign_lot_fifo_example
  exact ⟨by norm_num, h.1, h.2.1⟩

/-- C10: `assign_lot` with a requested quantity of exactly zero returns an
empty basket (total quantity and total cost zero) and leaves both the
basket and the inventory completely unchanged — the loop body never runs,
so no lot is removed or reduced. -/
theorem assign_lot_zero_qty (c : Criterio) (b : LotBasket) (inv : Inventory)
    (asset : String) :
    assign_lot c b 0 = (b, .ok ⟨b.asset, []⟩) ∧
    assign_lot_engine c inv asset 0 = (inv, .ok ⟨asset, []⟩) ∧
    (LotBasket.mk asset []).total_qty = 0 ∧
    (LotBasket.mk asset []).total_cost = 0 := by
  refine ⟨?_, ?_, rfl, rfl⟩
  · unfold assign_lot
    rw [assignGo_base le_rfl]
    dsimp only
    rw [if_pos (by norm_num [LotBasket.total_qty, assertTol])]
  · unfold assign_lot_engine
    rw [if_pos le_rfl, if_pos (by norm_num [assertTol])]

/-- C2 (observed behavior at the spec's failing input): disposing 10 XMR
under FIFO from a basket holding a single lot of 8 first pops the 8-lot
(mutating the basket) and then raises `IndexError` on the emptied list —
not an `InsufficientInventoryError`, and the basket's committed state has
changed (it is left empty, the partial pop is retained). -/
theorem assign_lot_insufficient_behavior :
    assign_lot .FIFO (LotBasket.mk "XMR" [⟨⟨2019, 11, 6⟩, "XMR", 8, 50⟩]) 10 =
      (LotBasket.mk "XMR" [], .error .indexError) ∧
    LotBasket.mk "XMR" [] ≠ LotBasket.mk "XMR" [⟨⟨2019, 11, 6⟩, "XMR", 8, 50⟩] := by
  constructor
  · simp [assign_lot, assignGo, selectLot, popLot, reduceSelected, LotBasket.add_lot,
      assertTol, LotBasket.total_qty]
    norm_num
  · simp

/-- Consuming `0 < q ≤` the first lot's quantity under FIFO touches only the
first (oldest) lot: it is split when `q` is strictly smaller, retired whole
when equal, and the rest of the list is returned unchanged. -/
theorem assign_lot_fifo_head (a : String) (l0 : Lot) (rest : List Lot) (q : ℚ)
    (ha : l0.asset = a) (h0 : 0 < q) (hle : q ≤ l0.qty) :
    assign_lot .FIFO ⟨a, l0 :: rest⟩ q =
      (⟨a, if q < l0.qty then { l0 with qty := l0.qty - q } :: rest else rest⟩,
        .ok ⟨a, [{ l0 with qty := q }]⟩) := by
  have hn0 : ¬q ≤ 0 := not_le.mpr h0
  have hsel : selectLot .FIFO (l0 :: rest) = some l0 := rfl
  by_cases hlt : q < l0.qty
  · unfold assign_lot
    rw [show (LotBasket.mk a (l0 :: rest)).lots = l0 :: rest from rfl,
      assignGo_split hn0 hsel hlt]
    rw [show (LotBasket.mk a (l0 :: rest)).asset = a from rfl]
    rw [show (LotBasket.mk a []).add_lot { l0 with qty := q } =
      .ok ⟨a, [{ l0 with qty := q }]⟩ from by
        rw [LotBasket.add_lot, if_neg (by simp [ha])]
        rfl]
    dsimp only [reduceSelected]
    rw [if_pos (by norm_num [LotBasket.total_qty, assertTol]), if_pos hlt]
  · have he : q = l0.qty := le_antisymm hle (not_lt.mp hlt)
    unfold assign_lot
    rw [show (LotBasket.mk a (l0 :: rest)).lots = l0 :: rest from rfl,
      assignGo_pop hn0 hsel hlt]
    rw [show (LotBasket.mk a (l0 :: rest)).asset = a from rfl]
    rw [show (LotBasket.mk a []).add_lot l0 = .ok ⟨a, [l0]⟩ from by
      rw [LotBasket.add_lot, if_neg (by simp [ha])]
      rfl]
    dsimp only
    rw [assignGo_base (by rw [he]; ring_nf; exact le_rfl)]
    dsimp only [popLot, List.tail]
    rw [if_pos (by rw [he]; norm_num [LotBasket.total_qty, assertTol]), if_neg hlt]
    rw [he]

/-- Consuming `0 < q ≤` the last lot's quantity under LIFO touches only the
last (newest) lot: it is split when `q` is strictly smaller, retired whole
when equal, and the front of the list is returned unchanged. -/
theorem assign_lot_lifo_last (a : String) (front : List Lot) (la : Lot) (q : ℚ)
    (ha : la.asset = a) (h0 : 0 < q) (hle : q ≤ la.qty) :
    assign_lot .LIFO ⟨a, front ++ [la]⟩ q =
      (⟨a, if q < la.qty then front ++ [{ la with qty := la.qty - q }] else front⟩,
        .ok ⟨a, [{ la with qty := q }]⟩) := by
  have hn0 : ¬q ≤ 0 := not_le.mpr h0
  have hsel : selectLot .LIFO (front ++ [la]) = some la := by
    simp [selectLot]
  by_cases hlt : q < la.qty
  · unfold assign_lot
    rw [show (LotBasket.mk a (front ++ [la])).lots = front ++ [la] from rfl,
      assignGo_split hn0 hsel hlt]
    rw [show (LotBasket.mk a (front ++ [la])).asset = a from rfl]
    rw [show (LotBasket.mk a []).add_lot { la with qty := q } =
      .ok ⟨a, [{ la with qty := q }]⟩ from by
        rw [LotBasket.add_lot, if_neg (by simp [ha])]
        rfl]
    dsimp only [reduceSelected]
    rw [show (front ++ [la]).getLast? = some la from by simp]
    rw [List.dropLast_concat]
    rw [if_pos (by norm_num [LotBasket.total_qty, assertTol]), if_pos hlt]
  · have he : q = la.qty := le_antisymm hle (not_lt.mp hlt)
    unfold assign_lot
    rw [show (LotBasket.mk a (front ++ [la])).lots = front ++ [la] from rfl,
      assignGo_pop hn0 hsel hlt]
    rw [show (LotBasket.mk a (front ++ [la])).asset = a from rfl]
    rw [show (LotBasket.mk a []).add_lot la = .ok ⟨a, [la]⟩ from by
      rw [LotBasket.add_lot, if_neg (by simp [ha])]
      rfl]
    dsimp only
    rw [assignGo_base (by rw [he]; ring_nf; exact le_rfl)]
    dsimp only [popLot]
    rw [List.dropLast_concat]
    rw [if_pos (by rw [he]; norm_num [LotBasket.total_qty, assertTol]), if_neg hlt]
    rw [he]

/-- A successful `assign_lot` is a successful `assignGo` run on the basket's
lot list followed by a passing tolerance assert. -/
theorem assign_lot_go_of_ok {c : Criterio} {b : LotBasket} {q : ℚ}
    {b2 consumed : LotBasket} (h : assign_lot c b q = (b2, .ok consumed)) :
    assignGo c q (LotBasket.mk b.asset []) b.lots = (b2.lots, .ok consumed) := by
  rcases hgo : assignGo c q ⟨b.asset, []⟩ b.lots with ⟨lots2, res⟩
  unfold assign_lot at h
  rw [hgo] at h
  cases res with
  | error e => simp at h
  | ok acc =>
    dsimp only at h
    by_cases hif : acc.total_qty - q ≤ assertTol
    · rw [if_pos hif] at h
      injection h with e1 e2
      injection e2 with e2
      subst e1
      subst e2
      rfl
    · rw [if_neg hif] at h
      injection h with e1 e2
      cases e2

/-- Structure of any successful FIFO run of the `assign_lot` loop: the
fragments appended to the accumulator are exactly an initial segment
`whole` of the lot list taken in order (oldest first), plus at most one
split fragment of the next lot (the last lot touched); the list keeps the
split remainder followed by the untouched newer lots. -/
theorem assignGo_fifo_structure (r : ℚ) (acc : LotBasket) (lots : List Lot) :
    ∀ lots2 acc2, assignGo .FIFO r acc lots = (lots2, .ok acc2) →
      ∃ whole rest, lots = whole ++ rest ∧
        ((acc2.lots = acc.lots ++ whole ∧ lots2 = rest) ∨
          ∃ l t r2, rest = l :: t ∧ 0 < r2 ∧ r2 < l.qty ∧
            acc2.lots = acc.lots ++ whole ++ [{ l with qty := r2 }] ∧
            lots2 = { l with qty := l.qty - r2 } :: t) := by
  induction r, acc, lots using assignGo.induct (c := Criterio.FIFO) with
  | case1 remaining acc lots hle =>
    intro lots2 acc2 h
    rw [assignGo_base hle] at h
    injection h with e1 e2
    injection e2 with e2
    subst e1
    subst e2
    exact ⟨[], lots, rfl, Or.inl ⟨by simp, rfl⟩⟩
  | case2 remaining acc lots hle hsel =>
    intro lots2 acc2 h
    rw [assignGo_none hle hsel] at h
    injection h with e1 e2
    cases e2
  | case3 remaining acc lots hle lot hsel hlt e hadd =>
    intro lots2 acc2 h
    rw [assignGo_split hle hsel hlt, hadd] at h
    injection h with e1 e2
    cases e2
  | case4 remaining acc lots hle lot hsel hlt acc3 hadd =>
    intro lots2 acc2 h
    rw [assignGo_split hle hsel hlt, hadd] at h
    injection h with e1 e2
    injection e2 with e2
    subst e1
    subst e2
    simp only [selectLot] at hsel
    obtain ⟨t, rfl⟩ := List.head?_eq_some_iff.mp hsel
    obtain ⟨hasset, rfl⟩ := add_lot_ok hadd
    exact ⟨[], lot :: t, rfl,
      Or.inr ⟨lot, t, remaining, rfl, not_le.mp hle, hlt, by simp, rfl⟩⟩
  | case5 remaining acc lots hle lot hsel hlt e hadd =>
    intro lots2 acc2 h
    rw [assignGo_pop hle hsel hlt, hadd] at h
    injection h with e1 e2
    cases e2
  | case6 remaining acc lots hle lot hsel hlt acc3 hadd ih =>
    intro lots2 acc2 h
    rw [assignGo_pop hle hsel hlt, hadd] at h
    simp only [selectLot] at hsel
    obtain ⟨t, rfl⟩ := List.head?_eq_some_iff.mp hsel
    obtain ⟨whole2, rest2, heq, hcase⟩ := ih lots2 acc2 h
    simp only [popLot, List.tail_cons] at heq
    subst heq
    obtain ⟨hasset, rfl⟩ := add_lot_ok hadd
    refine ⟨lot :: whole2, rest2, rfl, ?_⟩
    rcases hcase with ⟨ha2, hl2⟩ | ⟨l, t2, r2, hrest, hr0, hrlt, ha2, hl2⟩
    · exact Or.inl ⟨by simp [ha2], hl2⟩
    · exact Or.inr ⟨l, t2, r2, hrest, hr0, hrlt, by simp [ha2], hl2⟩

/-- Structure of any successful LIFO run of the `assign_lot` loop: the
fragments appended to the accumulator are exactly a final segment `whole`
of the lot list taken in reverse order (newest first), plus at most one
split fragment of the lot just before it (the last lot touched); the list
keeps the untouched older lots followed by the split remainder. -/
theorem assignGo_lifo_structure (r : ℚ) (acc : LotBasket) (lots : List Lot) :
    ∀ lots2 acc2, assignGo .LIFO r acc lots = (lots2, .ok acc2) →
      ∃ rest whole, lots = rest ++ whole ∧
        ((acc2.lots = acc.lots ++ whole.reverse ∧ lots2 = rest) ∨
          ∃ front l r2, rest = front ++ [l] ∧ 0 < r2 ∧ r2 < l.qty ∧
            acc2.lots = acc.lots ++ whole.reverse ++ [{ l with qty := r2 }] ∧
            lots2 = front ++ [{ l with qty := l.qty - r2 }]) := by
  induction r, acc, lots using assignGo.induct (c := Criterio.LIFO) with
  | case1 remaining acc lots hle =>
    intro lots2 acc2 h
    rw [assignGo_base hle] at h
    injection h with e1 e2
    injection e2 with e2
    subst e1
    subst e2
    exact ⟨lots, [], by simp, Or.inl ⟨by simp, rfl⟩⟩
  | case2 remaining acc lots hle hsel =>
    intro lots2 acc2 h
    rw [assignGo_none hle hsel] at h
    injection h with e1 e2
    cases e2
  | case3 remaining acc lots hle lot hsel hlt e hadd =>
    intro lots2 acc2 h
    rw [assignGo_split hle hsel hlt, hadd] at h
    injection h with e1 e2
    cases e2
  | case4 remaining acc lots hle lot hsel hlt acc3 hadd =>
    intro lots2 acc2 h
    rw [assignGo_split hle hsel hlt, hadd] at h
    injection h with e1 e2
    injection e2 with e2
    subst e1
    subst e2
    simp only [selectLot] at hsel
    obtain ⟨front, rfl⟩ := List.getLast?_eq_some_iff.mp hsel
    obtain ⟨hasset, rfl⟩ := add_lot_ok hadd
    refine ⟨front ++ [lot], [], by simp,
      Or.inr ⟨front, lot, remaining, rfl, not_le.mp hle, hlt, by simp, ?_⟩⟩
    simp only [reduceSelected, List.getLast?_concat, List.dropLast_concat]
  | case5 remaining acc lots hle lot hsel hlt e hadd =>
    intro lots2 acc2 h
    rw [assignGo_pop hle hsel hlt, hadd] at h
    injection h with e1 e2
    cases e2
  | case6 remaining acc lots hle lot hsel hlt acc3 hadd ih =>
    intro lots2 acc2 h
    rw [assignGo_pop hle hsel hlt, hadd] at h
    simp only [selectLot] at hsel
    obtain ⟨front, rfl⟩ := List.getLast?_eq_some_iff.mp hsel
    obtain ⟨rest2, whole2, heq, hcase⟩ := ih lots2 acc2 h
    simp only [popLot, List.dropLast_concat] at heq
    subst heq
    obtain ⟨hasset, rfl⟩ := add_lot_ok hadd
    refine ⟨rest2, whole2 ++ [lot], by simp, ?_⟩
    rcases hcase with ⟨ha2, hl2⟩ | ⟨front2, l, r2, hrest, hr0, hrlt, ha2, hl2⟩
    · exact Or.inl ⟨by simp [ha2], hl2⟩
    · exact Or.inr ⟨front2, l, r2, hrest, hr0, hrlt, by simp [ha2], hl2⟩

/-- FIFO multi-lot consumption structure at the `assign_lot` level: the
consumed basket is an initial segment of the original lot list in order
(oldest first), with at most the last touched lot split. -/
theorem assign_lot_fifo_structure {b : LotBasket} {q : ℚ}
    {b2 consumed : LotBasket} (h : assign_lot .FIFO b q = (b2, .ok consumed)) :
    ∃ whole rest, b.lots = whole ++ rest ∧
      ((consumed.lots = whole ∧ b2.lots = rest) ∨
        ∃ l t r2, rest = l :: t ∧ 0 < r2 ∧ r2 < l.qty ∧
          consumed.lots = whole ++ [{ l with qty := r2 }] ∧
          b2.lots = { l with qty := l.qty - r2 } :: t) := by
  obtain ⟨whole, rest, heq, hcase⟩ :=
    assignGo_fifo_structure q ⟨b.asset, []⟩ b.lots b2.lots consumed
      (assign_lot_go_of_ok h)
  refine ⟨whole, rest, heq, ?_⟩
  rcases hcase with ⟨h1, h2⟩ | ⟨l, t, r2, h1, h2, h3, h4, h5⟩
  · exact Or.inl ⟨by simpa using h1, h2⟩
  · exact Or.inr ⟨l, t, r2, h1, h2, h3, by simpa using h4, h5⟩

/-- LIFO multi-lot consumption structure at the `assign_lot` level: the
consumed basket is a final segment of the original lot list in reverse
order (newest first), with at most the last touched lot split. -/
theorem assign_lot_lifo_structure {b : LotBasket} {q : ℚ}
    {b2 consumed : LotBasket} (h : assign_lot .LIFO b q = (b2, .ok consumed)) :
    ∃ rest whole, b.lots = rest ++ whole ∧
      ((consumed.lots = whole.reverse ∧ b2.lots = rest) ∨
        ∃ front l r2, rest = front ++ [l] ∧ 0 < r2 ∧ r2 < l.qty ∧
          consumed.lots = whole.reverse ++ [{ l with qty := r2 }] ∧
          b2.lots = front ++ [{ l with qty := l.qty - r2 }]) := by
  obtain ⟨rest, whole, heq, hcase⟩ :=
    assignGo_lifo_structure q ⟨b.asset, []⟩ b.lots b2.lots consumed
      (assign_lot_go_of_ok h)
  refine ⟨rest, whole, heq, ?_⟩
  rcases hcase with ⟨h1, h2⟩ | ⟨front, l, r2, h1, h2, h3, h4, h5⟩
  · exact Or.inl ⟨by simpa using h1, h2⟩
  · exact Or.inr ⟨front, l, r2, h1, h2, h3, by simpa using h4, h5⟩

/-- C4: under FIFO a consumption of at most the oldest lot's quantity never
modifies any newer lot, and under LIFO symmetrically for the newest lot;
EVERY successful FIFO consumption — spanning any number of lots — retires
an initial segment of the basket strictly oldest-first, splitting at most
the last lot touched and leaving the newer lots unchanged, and every
successful LIFO consumption retires a final segment strictly newest-first
(fragments in reverse list order), splitting at most the last lot touched
and leaving the older lots unchanged; every fragment keeps the acquisition
date, unit cost and asset of the lot it came from; and the spec's example
— disposing 7 XMR from `[5@40, 5@50]` under FIFO — returns fragments 5@40
and 2@50 with total cost 300 and leaves `[3@50]`. -/
theorem assign_lot_order_spec :
    (∀ (a : String) (l0 : Lot) (rest : List Lot) (q : ℚ),
      l0.asset = a → 0 < q → q ≤ l0.qty →
      assign_lot .FIFO ⟨a, l0 :: rest⟩ q =
        (⟨a, if q < l0.qty then { l0 with qty := l0.qty - q } :: rest else rest⟩,
          .ok ⟨a, [{ l0 with qty := q }]⟩)) ∧
    (∀ (a : String) (front : List Lot) (la : Lot) (q : ℚ),
      la.asset = a → 0 < q → q ≤ la.qty →
      assign_lot .LIFO ⟨a, front ++ [la]⟩ q =
        (⟨a, if q < la.qty then front ++ [{ la with qty := la.qty - q }] else front⟩,
          .ok ⟨a, [{ la with qty := q }]⟩)) ∧
    (∀ (b : LotBasket) (q : ℚ) (b2 consumed : LotBasket),
      assign_lot .FIFO b q = (b2, .ok consumed) →
      ∃ whole rest, b.lots = whole ++ rest ∧
        ((consumed.lots = whole ∧ b2.lots = rest) ∨
          ∃ l t r2, rest = l :: t ∧ 0 < r2 ∧ r2 < l.qty ∧
            consumed.lots = whole ++ [{ l with qty := r2 }] ∧
            b2.lots = { l with qty := l.qty - r2 } :: t)) ∧
    (∀ (b : LotBasket) (q : ℚ) (b2 consumed : LotBasket),
      assign_lot .LIFO b q = (b2, .ok consumed) →
      ∃ rest whole, b.lots = rest ++ whole ∧
        ((consumed.lots = whole.reverse ∧ b2.lots = rest) ∨
          ∃ front l r2, rest = front ++ [l] ∧ 0 < r2 ∧ r2 < l.qty ∧
            consumed.lots = whole.reverse ++ [{ l with qty := r2 }] ∧
            b2.lots = front ++ [{ l with qty := l.qty - r2 }])) ∧
    (∀ (c : Criterio) (b : LotBasket) (q : ℚ) (b2 consumed : LotBasket),
      assign_lot c b q = (b2, .ok consumed) →
      ∀ f ∈ consumed.lots, ∃ l ∈ b.lots,
        f.date = l.date ∧ f.cost = l.cost ∧ f.asset = l.asset) ∧
    (assign_lot .FIFO
        (LotBasket.mk "XMR"
          [⟨⟨2019, 11, 6⟩, "XMR", 5, 40⟩, ⟨⟨2019, 12, 2⟩, "XMR", 5, 50⟩]) 7 =
      (LotBasket.mk "XMR" [⟨⟨2019, 12, 2⟩, "XMR", 3, 50⟩],
        .ok (LotBasket.mk "XMR"
          [⟨⟨2019, 11, 6⟩, "XMR", 5, 40⟩, ⟨⟨2019, 12, 2⟩, "XMR", 2, 50⟩])) ∧
      totalCost [⟨⟨2019, 11, 6⟩, "XMR", 5, 40⟩, ⟨⟨2019, 12, 2⟩, "XMR", 2, 50⟩] = 300) := by
  refine ⟨assign_lot_fifo_head, assign_lot_lifo_last,
    fun b q b2 consumed h => assign_lot_fifo_structure h,
    fun b q b2 consumed h => assign_lot_lifo_structure h,
    ?_, assign_lot_fifo_example, ?_⟩
  · intro c b q b2 consumed h
    exact (assign_lot_ok h).2.2.2.2
  · norm_num [totalCost]

/-- Witness for C4: instantiates the FIFO head-frame part at consuming 2 XMR
from `[5@40, 5@50]` (only the oldest lot is split, the newer lot is
untouched), and the LIFO spanning part at consuming 7 XMR from the same
basket (the newest lot is retired whole, then the older lot is split). -/
theorem assign_lot_order_spec_witness :
    ((⟨⟨2019, 11, 6⟩, "XMR", 5, 40⟩ : Lot).asset = "XMR" ∧ (0 : ℚ) < 2 ∧
      (2 : ℚ) ≤ (⟨⟨2019, 11, 6⟩, "XMR", 5, 40⟩ : Lot).qty) ∧
    assign_lot .FIFO
        (LotBasket.mk "XMR"
          [⟨⟨2019, 11, 6⟩, "XMR", 5, 40⟩, ⟨⟨2019, 12, 2⟩, "XMR", 5, 50⟩]) 2 =
      (LotBasket.mk "XMR"
          [⟨⟨2019, 11, 6⟩, "XMR", 3, 40⟩, ⟨⟨2019, 12, 2⟩, "XMR", 5, 50⟩],
        .ok (LotBasket.mk "XMR" [⟨⟨2019, 11, 6⟩, "XMR", 2, 40⟩])) ∧
    assign_lot .LIFO
        (LotBasket.mk "XMR"
          [⟨⟨2019, 11, 6⟩, "XMR", 5, 40⟩, ⟨⟨2019, 12, 2⟩, "XMR", 5, 50⟩]) 7 =
      (LotBasket.mk "XMR" [⟨⟨2019, 11, 6⟩, "XMR", 3, 40⟩],
        .ok (LotBasket.mk "XMR"
          [⟨⟨2019, 12, 2⟩, "XMR", 5, 50⟩, ⟨⟨2019, 11, 6⟩, "XMR", 2, 40⟩])) ∧
    (∃ rest whole,
      (LotBasket.mk "XMR"
        [⟨⟨2019, 11, 6⟩, "XMR", 5, 40⟩, ⟨⟨2019, 12, 2⟩, "XMR", 5, 50⟩]).lots =
        rest ++ whole ∧
      (((LotBasket.mk "XMR"
          [⟨⟨2019, 12, 2⟩, "XMR", 5, 50⟩, ⟨⟨2019, 11, 6⟩, "XMR", 2, 40⟩]).lots =
            whole.reverse ∧
        (LotBasket.mk "XMR" [⟨⟨2019, 11, 6⟩, "XMR", 3, 40⟩]).lots = rest) ∨
        ∃ front l r2, rest = front ++ [l] ∧ 0 < r2 ∧ r2 < l.qty ∧
          (LotBasket.mk "XMR"
            [⟨⟨2019, 12, 2⟩, "XMR", 5, 50⟩, ⟨⟨2019, 11, 6⟩, "XMR", 2, 40⟩]).lots =
            whole.reverse ++ [{ l with qty := r2 }] ∧
          (LotBasket.mk "XMR" [⟨⟨2019, 11, 6⟩, "XMR", 3, 40⟩]).lots =
            front ++ [{ l with qty := l.qty - r2 }])) := by
  have hlifo : assign_lot .LIFO
      (LotBasket.mk "XMR"
        [⟨⟨2019, 11, 6⟩, "XMR", 5, 40⟩, ⟨⟨2019, 12, 2⟩, "XMR", 5, 50⟩]) 7 =
      (LotBasket.mk "XMR" [⟨⟨2019, 11, 6⟩, "XMR", 3, 40⟩],
        .ok (LotBasket.mk "XMR"
          [⟨⟨2019, 12, 2⟩, "XMR", 5, 50⟩, ⟨⟨2019, 11, 6⟩, "XMR", 2, 40⟩])) := by
    simp [assign_lot, assignGo, selectLot, popLot, reduceSelected, List.getLast?,
      LotBasket.add_lot, assertTol, LotBasket.total_qty]
    norm_num
  refine ⟨⟨rfl, by norm_num, by norm_num⟩, ?_, hlifo,
    assign_lot_order_spec.2.2.2.1
      (LotBasket.mk "XMR"
        [⟨⟨2019, 11, 6⟩, "XMR", 5, 40⟩, ⟨⟨2019, 12, 2⟩, "XMR", 5, 50⟩]) 7
      (LotBasket.mk "XMR" [⟨⟨2019, 11, 6⟩, "XMR", 3, 40⟩])
      (LotBasket.mk "XMR"
        [⟨⟨2019, 12, 2⟩, "XMR", 5, 50⟩, ⟨⟨2019, 11, 6⟩, "XMR", 2, 40⟩]) hlifo⟩
  have h := assign_lot_order_spec.1 "XMR" ⟨⟨2019, 11, 6⟩, "XMR", 5, 40⟩
    [⟨⟨2019, 12, 2⟩, "XMR", 5, 50⟩] 2 rfl (by norm_num) (by norm_num)
  rw [h]
  norm_num

/-- C8: `avg_cost` is `total_cost / total_qty` whenever the total quantity is
strictly positive, and `0` whenever the total quantity is zero (in
particular for the empty basket). -/
theorem avg_cost_spec (b : LotBasket) :
    (0 < b.total_qty → b.avg_cost = b.total_cost / b.total_qty) ∧
    (b.total_qty = 0 → b.avg_cost = 0) := by
  constructor
  · intro h
    simp [LotBasket.avg_cost, ne_of_gt h]
  · intro h
    simp [LotBasket.avg_cost, h]

/-- Witness for C8 at the test suite's XMR basket `[5@40, 5@50]`
(total quantity 10, total cost 450, average cost 45) and at the empty
basket. -/
theorem avg_cost_spec_witness :
    (0 < (LotBasket.mk "XMR"
        [⟨⟨2019, 11, 6⟩, "XMR", 5, 40⟩, ⟨⟨2019, 12, 2⟩, "XMR", 5, 50⟩]).total_qty ∧
      (LotBasket.mk "XMR"
        [⟨⟨2019, 11, 6⟩, "XMR", 5, 40⟩, ⟨⟨2019, 12, 2⟩, "XMR", 5, 50⟩]).avg_cost = 45) ∧
    ((LotBasket.mk "XMR" []).total_qty = 0 ∧ (LotBasket.mk "XMR" []).avg_cost = 0) := by
  have hq : (LotBasket.mk "XMR"
      [⟨⟨2019, 11, 6⟩, "XMR", 5, 40⟩, ⟨⟨2019, 12, 2⟩, "XMR", 5, 50⟩]).total_qty = 10 := by
    norm_num [LotBasket.total_qty, totalQty]
  have hc : (LotBasket.mk "XMR"
      [⟨⟨2019, 11, 6⟩, "XMR", 5, 40⟩, ⟨⟨2019, 12, 2⟩, "XMR", 5, 50⟩]).total_cost = 450 := by
    norm_num [LotBasket.total_cost, totalCost]
  have h0 : (LotBasket.mk "XMR" []).total_qty = 0 := by
    norm_num [LotBasket.total_qty, totalQty]
  refine ⟨⟨by rw [hq]; norm_num, ?_⟩, h0, (avg_cost_spec (LotBasket.mk "XMR" [])).2 h0⟩
  have h := (avg_cost_spec (LotBasket.mk "XMR"
      [⟨⟨2019, 11, 6⟩, "XMR", 5, 40⟩, ⟨⟨2019, 12, 2⟩, "XMR", 5, 50⟩])).1
    (by rw [hq]; norm_num)
  rw [h, hq, hc]
  norm_num

/-- C7: when the transaction's date is missing from either required price
table, both permuta handlers fail with the missing-key error — the price
is never defaulted; and the handlers consult the price tables only at the
transaction's own date, so no adjacent date can influence the result. -/
theorem missing_price_spec (btc xmr : PriceTable) (tx : Transaction)
    (h : btc tx.date = none ∨ xmr tx.date = none) :
    handle_buy_permuta btc xmr tx = .error .keyError ∧
    handle_sell_permuta btc xmr tx = .error .keyError ∧
    (∀ btc2 xmr2 : PriceTable, btc2 tx.date = btc tx.date →
      xmr2 tx.date = xmr tx.date →
      handle_buy_permuta btc2 xmr2 tx = handle_buy_permuta btc xmr tx ∧
      handle_sell_permuta btc2 xmr2 tx = handle_sell_permuta btc xmr tx) := by
  have hvt : permutaVt btc xmr tx = .error .keyError := by
    rcases h with h | h
    · rw [permutaVt, h]
    · rw [permutaVt]
      cases btc tx.date with
      | none => rfl
      | some p2 => rw [h]
  refine ⟨by rw [handle_buy_permuta, hvt], by rw [handle_sell_permuta, hvt],
    fun btc2 xmr2 h2 h1 => ?_⟩
  have hsame : permutaVt btc2 xmr2 tx = permutaVt btc xmr tx := by
    rw [permutaVt, permutaVt, h2, h1]
  exact ⟨by rw [handle_buy_permuta, handle_buy_permuta, hsame],
    by rw [handle_sell_permuta, handle_sell_permuta, hsame]⟩

/-- Witness for C7: a swap on a date absent from both price tables fails
with the missing-key error. -/
theorem missing_price_spec_witness :
    (fun _ : Date => (none : Option ℚ)) (⟨2020, 3, 1⟩ : Date) = none ∧
    handle_buy_permuta (fun _ => none) (fun _ => none)
      ⟨"t1", ⟨2020, 3, 1⟩, .Buy, 2, "XMR", 1, "BTC"⟩ = .error .keyError := by
  refine ⟨rfl, ?_⟩
  exact (missing_price_spec (fun _ => none) (fun _ => none)
    ⟨"t1", ⟨2020, 3, 1⟩, .Buy, 2, "XMR", 1, "BTC"⟩ (Or.inl rfl)).1

/-- C1 (observed behavior at the failing input): the permuta handlers always
apply the hard-coded BTC table to `qty2` and the hard-coded XMR table to
`qty1`.  Buying 1 BTC against 10 XMR on a date where BTC trades at 100 and
XMR at 50 therefore values the swap at `max(100×10, 50×1) = 1000`, while
the documented rule `max(price(asset2)×qty2, price(asset1)×qty1)` — each
leg valued by its own asset's price — gives `max(50×10, 100×1) = 500`. -/
theorem buy_permuta_wrong_oracle :
    handle_buy_permuta
        (fun d => if d = ⟨2020, 3, 1⟩ then some 100 else none)
        (fun d => if d = ⟨2020, 3, 1⟩ then some 50 else none)
        ⟨"t1", ⟨2020, 3, 1⟩, .Buy, 1, "BTC", 10, "XMR"⟩ =
      .ok ⟨some ("XMR", 10), some ("BTC", 1), 1000, some 1000⟩ ∧
    specSwapVt
        (fun a d =>
          if a = "BTC" then (if d = ⟨2020, 3, 1⟩ then some 100 else none)
          else if a = "XMR" then (if d = ⟨2020, 3, 1⟩ then some 50 else none)
          else none)
        ⟨"t1", ⟨2020, 3, 1⟩, .Buy, 1, "BTC", 10, "XMR"⟩ = some 500 ∧
    (1000 : ℚ) ≠ 500 := by
  refine ⟨?_, ?_, by norm_num⟩
  · simp [handle_buy_permuta, permutaVt]
    norm_num
  · simp [specSwapVt]
    norm_num

/-- C5 (observed behavior): a zero-quantity transaction makes the fiat buy
handler raise the `decimal` division error, and an unrecognized
`(type, asset2)` pair makes the dispatch call `None`, raising `TypeError`
— in neither case an `InvalidTransactionError`. -/
theorem invalid_transaction_behavior :
    handle_buy ⟨"t1", ⟨2020, 1, 10⟩, .Buy, 0, "XMR", 300, "EUR"⟩ =
      .error .divisionByZero ∧
    step ⟨2020, .FIFO, "EUR", fun _ => none, fun _ => none⟩ ⟨[], []⟩
        ⟨"t1", ⟨2020, 1, 10⟩, .Buy, 0, "XMR", 300, "EUR"⟩ =
      .error .divisionByZero ∧
    getHandler "EUR" .Buy "USD" = none ∧
    step ⟨2020, .FIFO, "EUR", fun _ => none, fun _ => none⟩ ⟨[], []⟩
        ⟨"t2", ⟨2020, 1, 10⟩, .Buy, 1, "XMR", 300, "USD"⟩ =
      .error .typeError := by
  refine ⟨rfl, ?_, ?_, ?_⟩
  · simp [step, processTx, getHandler, runHandler, handle_buy]
  · simp [getHandler]
  · simp [step, processTx, getHandler]

/-- On the successful path, a transaction outside the reporting year leaves
the tax ledger untouched: the event-recording branch is guarded by
`tx.date.year == self.year`. -/
theorem processTx_events_of_ne (cfg : EngineConfig) (st : EngineState)
    (tx : Transaction) (st2 : EngineState) (hne : tx.date.year ≠ cfg.year)
    (h : processTx cfg st tx = .ok st2) : st2.tax_events = st.tax_events := by
  unfold processTx at h
  cases hg : getHandler cfg.base_asset tx.type tx.asset2 with
  | none =>
    rw [hg] at h
    cases h
  | some k =>
    rw [hg] at h
    dsimp only at h
    cases hr : runHandler cfg.btceur cfg.xmreur k tx with
    | error e =>
      rw [hr] at h
      cases h
    | ok r =>
      rw [hr] at h
      dsimp only at h
      cases hp : popStep cfg.criterio st.inventory r.pop with
      | error e =>
        rw [hp] at h
        cases h
      | ok pr =>
        rw [hp] at h
        obtain ⟨inv1, consumed⟩ := pr
        dsimp only at h
        cases hps : pushStep inv1 tx.date r.push r.cost_basis with
        | error e =>
          rw [hps] at h
          cases h
        | ok inv2 =>
          rw [hps] at h
          dsimp only at h
          rw [if_neg hne] at h
          injection h with e
          rw [← e]

/-- A run over transactions that are all dated after the reporting year
returns the initial state unchanged. -/
theorem processLoop_future (cfg : EngineConfig) (st : EngineState)
    (txs : List Transaction) (h : ∀ tx ∈ txs, cfg.year < tx.date.year) :
    processLoop cfg st txs = .ok st := by
  induction txs with
  | nil => rfl
  | cons tx rest ih =>
    have hstep : step cfg st tx = .ok st := by
      rw [step, if_neg (not_le.mpr (h tx (by simp)))]
    rw [processLoop, hstep]
    exact ih fun tx2 hm => h tx2 (by simp [hm])

/-- C6: a transaction dated after the reporting year is never processed
(the state is returned unchanged), a transaction dated at most the
reporting year is processed by the handler pipeline, a processed
transaction records tax events only when its year equals the reporting
year, and a whole transaction list of future-dated entries leaves the
state untouched. -/
theorem year_filter_spec (cfg : EngineConfig) (st : EngineState)
    (tx : Transaction) :
    (cfg.year < tx.date.year → step cfg st tx = .ok st) ∧
    (tx.date.year ≤ cfg.year → step cfg st tx = processTx cfg st tx) ∧
    (∀ st2, tx.date.year ≠ cfg.year → step cfg st tx = .ok st2 →
      st2.tax_events = st.tax_events) ∧
    (∀ (txs : List Transaction) (st0 : EngineState),
      (∀ tx2 ∈ txs, cfg.year < tx2.date.year) →
      process_transactions cfg st0 txs = .ok st0) := by
  refine ⟨fun hgt => ?_, fun hle => ?_, fun st2 hne hok => ?_,
    fun txs st0 hall => ?_⟩
  · rw [step, if_neg (not_le.mpr hgt)]
  · rw [step, if_pos hle]
  · rw [step] at hok
    by_cases hle : tx.date.year ≤ cfg.year
    · rw [if_pos hle] at hok
      exact processTx_events_of_ne cfg st tx st2 hne hok
    · rw [if_neg hle] at hok
      injection hok with e
      rw [← e]
  · rw [process_transactions]
    exact processLoop_future cfg st0 _
      fun tx2 hmem => hall tx2 (List.mem_mergeSort.mp hmem)

/-- Witness for C6: a 2021-dated transaction under reporting year 2020 is
skipped, leaving the empty state unchanged. -/
theorem year_filter_spec_witness :
    (⟨2020, .FIFO, "EUR", fun _ => none, fun _ => none⟩ : EngineConfig).year <
      (⟨2021, 1, 1⟩ : Date).year ∧
    step ⟨2020, .FIFO, "EUR", fun _ => none, fun _ => none⟩ ⟨[], []⟩
        ⟨"t1", ⟨2021, 1, 1⟩, .Buy, 1, "XMR", 60, "EUR"⟩ =
      .ok ⟨[], []⟩ :=
  ⟨by decide,
    (year_filter_spec ⟨2020, .FIFO, "EUR", fun _ => none, fun _ => none⟩ ⟨[], []⟩
      ⟨"t1", ⟨2021, 1, 1⟩, .Buy, 1, "XMR", 60, "EUR"⟩).1 (by decide)⟩

/-- C9: when the classifier computes an income of exactly zero for a
transaction, no tax event is recorded — the `if income:` truthiness test
skips the ledger append, whatever the transaction's year. -/
theorem zero_income_no_event (cfg : EngineConfig) (st : EngineState)
    (tx : Transaction) (k : HandlerKind) (r : HandlerResult) (st2 : EngineState)
    (hk : getHandler cfg.base_asset tx.type tx.asset2 = some k)
    (hr : runHandler cfg.btceur cfg.xmreur k tx = .ok r)
    (hinc : r.income = some 0)
    (hok : step cfg st tx = .ok st2) :
    st2.tax_events = st.tax_events := by
  rw [step] at hok
  by_cases hle : tx.date.year ≤ cfg.year
  · rw [if_pos hle] at hok
    unfold processTx at hok
    rw [hk] at hok
    dsimp only at hok
    rw [hr] at hok
    dsimp only at hok
    cases hp : popStep cfg.criterio st.inventory r.pop with
    | error e =>
      rw [hp] at hok
      cases hok
    | ok pr =>
      rw [hp] at hok
      obtain ⟨inv1, consumed⟩ := pr
      dsimp only at hok
      cases hps : pushStep inv1 tx.date r.push r.cost_basis with
      | error e =>
        rw [hps] at hok
        cases hok
      | ok inv2 =>
        rw [hps] at hok
        dsimp only at hok
        have hfalse : incomeTruthy r.income = false := by
          rw [hinc]
          simp [incomeTruthy]
        rw [hfalse] at hok
        by_cases hyr : tx.date.year = cfg.year
        · rw [if_pos hyr, if_neg (by simp)] at hok
          injection hok with e
          rw [← e]
        · rw [if_neg hyr] at hok
          injection hok with e
          rw [← e]
  · rw [if_neg hle] at hok
    injection hok with e
    rw [← e]

/-- Witness for C9: selling 5 XMR for 0 EUR in the reporting year computes
income 0 and records no tax event, while the inventory is still consumed. -/
theorem zero_income_no_event_witness :
    getHandler "EUR" .Sell "EUR" = some .sellFiat ∧
    runHandler (fun _ => none) (fun _ => none) .sellFiat
        ⟨"t1", ⟨2020, 2, 20⟩, .Sell, 5, "XMR", 0, "EUR"⟩ =
      .ok ⟨some ("XMR", 5), none, 0, some 0⟩ ∧
    step ⟨2020, .FIFO, "EUR", fun _ => none, fun _ => none⟩
        ⟨[("XMR", ⟨"XMR", [⟨⟨2019, 11, 6⟩, "XMR", 5, 40⟩]⟩)], []⟩
        ⟨"t1", ⟨2020, 2, 20⟩, .Sell, 5, "XMR", 0, "EUR"⟩ =
      .ok ⟨[("XMR", ⟨"XMR", []⟩)], []⟩ ∧
    (⟨[("XMR", ⟨"XMR", []⟩)], []⟩ : EngineState).tax_events =
      (⟨[("XMR", ⟨"XMR", [⟨⟨2019, 11, 6⟩, "XMR", 5, 40⟩]⟩)], []⟩ :
        EngineState).tax_events := by
  have hk : getHandler "EUR" .Sell "EUR" = some .sellFiat := rfl
  have hr : runHandler (fun _ => none) (fun _ => none) .sellFiat
      ⟨"t1", ⟨2020, 2, 20⟩, .Sell, 5, "XMR", 0, "EUR"⟩ =
      .ok ⟨some ("XMR", 5), none, 0, some 0⟩ := by
    simp [runHandler, handle_sell]
  have hstep : step ⟨2020, .FIFO, "EUR", fun _ => none, fun _ => none⟩
      ⟨[("XMR", ⟨"XMR", [⟨⟨2019, 11, 6⟩, "XMR", 5, 40⟩]⟩)], []⟩
      ⟨"t1", ⟨2020, 2, 20⟩, .Sell, 5, "XMR", 0, "EUR"⟩ =
      .ok ⟨[("XMR", ⟨"XMR", []⟩)], []⟩ := by
    simp [step, processTx, getHandler, runHandler, handle_sell, popStep,
      assign_lot_engine, lookupBasket, setBasket, pushStep, incomeTruthy,
      assign_lot, assignGo, selectLot, popLot, reduceSelected,
      LotBasket.add_lot, assertTol, LotBasket.total_qty]
    norm_num
  exact ⟨hk, hr, hstep,
    zero_income_no_event _ _ _ .sellFiat ⟨some ("XMR", 5), none, 0, some 0⟩ _
      hk hr rfl hstep⟩

end Cryptotax
